import Mathlib

/-!
Shallow embedding of the filtering core of the CRM repository
(`crm/filters.py` together with the relevant fields of `crm/models.py`).

Modelling conventions:
* A queryset is a `List` of records (rows in result order); `filter` on a
  many-to-many path produces one row per matching join pair, and
  `distinct` deduplicates rows by primary key, keeping first occurrences.
* Django `Decimal` values and datetimes are modelled as `Rat`
  (datetimes as rational timestamps; only their ordering matters here).
* Raw caller-supplied filter values are `FilterValue`; form cleaning
  (django-filter runs the whole form's validation before any filtering)
  is `cleanOne`/`cleanAll`, and produces `Cleaned` scalars or a
  `ValidationError` naming the offending filter.
* A declared filter (django-filter `Filter` instance) is a `FilterDef`:
  its name, the form field type used for cleaning, and the narrowing
  step it performs on the queryset.  Absent/empty values clean to `none`
  and the step is skipped, mirroring `EMPTY_VALUES` handling.
-/

/-- `crm/models.py` `Customer`: `phone` is nullable (`null=True`). -/
structure Customer where
  id : Nat
  name : String
  email : String
  phone : Option String
  created_at : Rat
deriving DecidableEq, Repr

/-- `crm/models.py` `Product`: `stock` is a `PositiveIntegerField`. -/
structure Product where
  id : Nat
  name : String
  price : Rat
  stock : Nat
deriving DecidableEq, Repr

/-- `crm/models.py` `Order`: foreign key to a customer, many-to-many products. -/
structure Order where
  id : Nat
  customer : Customer
  products : List Product
  total_amount : Rat
  order_date : Rat
deriving DecidableEq, Repr

/-- A raw caller-supplied scalar, before form cleaning. -/
inductive FilterValue where
  | str (s : String)
  | num (q : Rat)
  | boolean (b : Bool)
  | null
deriving DecidableEq, Repr

/-- A scalar after form cleaning. -/
inductive Cleaned where
  | cstr (s : String)
  | cnum (q : Rat)
  | cbool (b : Bool)
deriving DecidableEq, Repr

/-- The form field type a declared filter cleans its raw value with
(`CharFilter`, `NumberFilter`/`DateTimeFilter`, `BooleanFilter`). -/
inductive FieldType where
  | tChar
  | tNum
  | tBool
deriving DecidableEq, Repr

/-- A validation failure, tagged with the declared filter it concerns. -/
structure ValidationError where
  filterName : String
  message : String
deriving DecidableEq, Repr

/-- One declared filter of a FilterSet: its parameter name, its form
field type, and the queryset narrowing it performs for a cleaned value. -/
structure FilterDef (α : Type) where
  name : String
  ftype : FieldType
  run : List α → Cleaned → List α

/-- The caller-supplied parameter mapping (FilterRequest of the spec). -/
abbrev FilterRequest := List (String × FilterValue)

/-- Look up the raw value supplied for a parameter name. -/
def getRaw (req : FilterRequest) (name : String) : Option FilterValue :=
  (req.find? (fun p => p.1 == name)).map (fun p => p.2)

/-- Numeric value of a digit string. -/
def digitsToNat (cs : List Char) : Nat :=
  cs.foldl (fun n c => 10 * n + (c.toNat - 48)) 0

/-- Strip leading and trailing whitespace, as the `Decimal` constructor
does with its string argument. -/
def stripChars (cs : List Char) : List Char :=
  ((cs.dropWhile (fun c => c.isWhitespace)).reverse.dropWhile
    (fun c => c.isWhitespace)).reverse

/-- Continuation of a digit group: digits with single underscores allowed
between digits only (Python numeric-literal underscores). -/
def digitGroupRest : List Char → Bool
  | [] => true
  | ['_'] => false
  | '_' :: c :: rest => c.isDigit && digitGroupRest rest
  | c :: rest => c.isDigit && digitGroupRest rest

/-- A non-empty digit group, underscores allowed between digits. -/
def digitGroup : List Char → Bool
  | [] => false
  | c :: rest => c.isDigit && digitGroupRest rest

/-- Numeric value of a digit group (underscores dropped). -/
def digitGroupVal (cs : List Char) : Nat :=
  digitsToNat (cs.filter (fun c => c ≠ '_'))

/-- Mantissa of a decimal numeric string: digits with an optional
fractional part; at least one digit overall. -/
def parseMantissa (mant : List Char) : Option Rat :=
  let ip := mant.takeWhile (fun c => c ≠ '.')
  match mant.dropWhile (fun c => c ≠ '.') with
  | [] => if digitGroup ip then some (digitGroupVal ip : Rat) else none
  | _ :: fp =>
      if (digitGroup ip ∨ ip = []) ∧ (digitGroup fp ∨ fp = []) ∧ (ip ≠ [] ∨ fp ≠ [])
          ∧ fp.all (fun c => c ≠ '.') then
        some ((digitGroupVal ip : Rat)
          + (digitGroupVal fp : Rat) / ((10 : Rat) ^ (fp.filter (fun c => c ≠ '_')).length))
      else none

/-- Exponent of a decimal numeric string (the part after `e`/`E`):
optional sign, then a digit group. -/
def parseExponent (ecs : List Char) : Option Int :=
  let signBody : Int × List Char :=
    match ecs with
    | '-' :: rest => (-1, rest)
    | '+' :: rest => (1, rest)
    | _ => (1, ecs)
  if digitGroup signBody.2 then some (signBody.1 * (digitGroupVal signBody.2 : Int))
  else none

/-- Decimal-string coercion as Django's `DecimalField.to_python` performs
it via `Decimal(str(value))`: leading/trailing whitespace stripped, then
an optional sign, digits with an optional fractional part (underscores
allowed between digits), and an optional `e`/`E` exponent.  `NaN` and
`Infinity` parse in Python but are then rejected by the field's
validation with the same "Enter a number." error, so they are treated as
invalid here as well. -/
def parseDecimal (s : String) : Option Rat :=
  let cs := stripChars s.toList
  let signBody : Rat × List Char :=
    match cs with
    | '-' :: rest => (-1, rest)
    | '+' :: rest => (1, rest)
    | _ => (1, cs)
  let mant := signBody.2.takeWhile (fun c => c ≠ 'e' ∧ c ≠ 'E')
  match parseMantissa mant, signBody.2.dropWhile (fun c => c ≠ 'e' ∧ c ≠ 'E') with
  | none, _ => none
  | some m, [] => some (signBody.1 * m)
  | some m, _ :: ecs =>
      match parseExponent ecs with
      | none => none
      | some e => some (signBody.1 * m * (10 : Rat) ^ e)

/-- Form cleaning of one raw value against one field type.  Mirrors
Django: absent, SQL NULL and the empty string clean to nothing for every
field type; a non-numeric nonempty string for a numeric field is a
validation error; `NullBooleanField` maps unrecognised strings to
nothing rather than erroring. -/
def cleanOne : FieldType → Option FilterValue → Except String (Option Cleaned)
  | _, none => .ok none
  | _, some .null => .ok none
  | .tChar, some (.str s) => if s = "" then .ok none else .ok (some (.cstr s))
  | .tChar, some (.num q) => .ok (some (.cstr (toString q)))
  | .tChar, some (.boolean b) => .ok (some (.cstr (if b then "True" else "False")))
  | .tNum, some (.str s) =>
      if s = "" then .ok none
      else
        match parseDecimal s with
        | some q => .ok (some (.cnum q))
        | none => .error "Enter a number."
  | .tNum, some (.num q) => .ok (some (.cnum q))
  | .tNum, some (.boolean b) => .ok (some (.cnum (if b then 1 else 0)))
  | .tBool, some (.str s) =>
      if s = "true" ∨ s = "True" ∨ s = "1" then .ok (some (.cbool true))
      else if s = "false" ∨ s = "False" ∨ s = "0" then .ok (some (.cbool false))
      else .ok none
  | .tBool, some (.num q) =>
      if q = 1 then .ok (some (.cbool true))
      else if q = 0 then .ok (some (.cbool false))
      else .ok none
  | .tBool, some (.boolean b) => .ok (some (.cbool b))

/-- Clean every declared filter's raw value; the whole form validates
before any filtering happens, so a single failure aborts the call. -/
def cleanAll {α : Type} : List (FilterDef α) → FilterRequest →
    Except ValidationError (List (FilterDef α × Option Cleaned))
  | [], _ => .ok []
  | fd :: rest, req =>
      match cleanOne fd.ftype (getRaw req fd.name) with
      | .error m => .error ⟨fd.name, m⟩
      | .ok c =>
          match cleanAll rest req with
          | .error e => .error e
          | .ok tail => .ok ((fd, c) :: tail)

/-- Apply the declared filters in declaration order, skipping the ones
whose cleaned value is absent. -/
def runFilters {α : Type} : List α → List (FilterDef α × Option Cleaned) → List α
  | qs, [] => qs
  | qs, (fd, c) :: rest =>
      runFilters (match c with
        | none => qs
        | some cv => fd.run qs cv) rest

/-- The FilterEngine's public contract:
`apply(entityCollection, filterSpec, filterRequest)`. -/
def applyFilterSet {α : Type} (spec : List (FilterDef α)) (req : FilterRequest)
    (qs : List α) : Except ValidationError (List α) :=
  match cleanAll spec req with
  | .error e => .error e
  | .ok cl => .ok (runFilters qs cl)

/-- Character-list prefix test. -/
def prefixOfList : List Char → List Char → Bool
  | [], _ => true
  | _ :: _, [] => false
  | a :: as, b :: bs => a == b && prefixOfList as bs

/-- Character-list substring test. -/
def substrOfList (needle : List Char) : List Char → Bool
  | [] => needle.isEmpty
  | b :: bs => prefixOfList needle (b :: bs) || substrOfList needle bs

/-- Case-insensitive substring containment (`icontains`). -/
def icontains (hay needle : String) : Bool :=
  substrOfList (needle.toList.map Char.toLower) (hay.toList.map Char.toLower)

/-- `v` is a prefix of `p` (SQL `LIKE 'v%'`). -/
def strStartsWith (v p : String) : Bool :=
  prefixOfList v.toList p.toList

/-- `phone__startswith` on the nullable phone column: NULL never matches. -/
def phone_startswith (c : Customer) (v : String) : Bool :=
  match c.phone with
  | some p => strStartsWith v p
  | none => false

/-- A `CharFilter(lookup_expr='icontains')` step on a single-valued field. -/
def charStep {α : Type} (get : α → String) (qs : List α) (c : Cleaned) : List α :=
  match c with
  | .cstr s => qs.filter (fun x => icontains (get x) s)
  | _ => qs

/-- A `NumberFilter`/`DateTimeFilter` `gte` step. -/
def gteStep {α : Type} (get : α → Rat) (qs : List α) (c : Cleaned) : List α :=
  match c with
  | .cnum v => qs.filter (fun x => decide (v ≤ get x))
  | _ => qs

/-- A `NumberFilter`/`DateTimeFilter` `lte` step. -/
def lteStep {α : Type} (get : α → Rat) (qs : List α) (c : Cleaned) : List α :=
  match c with
  | .cnum v => qs.filter (fun x => decide (get x ≤ v))
  | _ => qs

/-- A `NumberFilter` `exact` step. -/
def exactStep {α : Type} (get : α → Rat) (qs : List α) (c : Cleaned) : List α :=
  match c with
  | .cnum v => qs.filter (fun x => decide (get x = v))
  | _ => qs

/-- SQL join through the order's many-to-many products: one output row
per (order, matching product) pair, in queryset order. -/
def mtmJoinRows (pred : Product → Bool) (qs : List Order) : List Order :=
  qs.flatMap (fun o => (o.products.filter pred).map (fun _ => o))

/-- `distinct()` on an order queryset: drop rows whose primary key was
already seen. -/
def distinctAux (seen : List Nat) : List Order → List Order
  | [] => []
  | o :: rest =>
      if o.id ∈ seen then distinctAux seen rest
      else o :: distinctAux (o.id :: seen) rest

/-- `queryset.distinct()`. -/
def qdistinct (qs : List Order) : List Order := distinctAux [] qs

/-- `CustomerFilter.filter_phone_pattern`: `if value:` then
`queryset.filter(phone__startswith=value)` else `queryset`. -/
def filter_phone_pattern (qs : List Customer) (value : String) : List Customer :=
  if value ≠ "" then qs.filter (fun c => phone_startswith c value) else qs

/-- `ProductFilter.filter_low_stock`: `if value:` then
`queryset.filter(stock__lt=10)` else `queryset`. -/
def filter_low_stock (qs : List Product) (value : Bool) : List Product :=
  if value then qs.filter (fun p => decide (p.stock < 10)) else qs

/-- `OrderFilter.filter_by_product_id`: `if value:` then
`queryset.filter(products__id=value).distinct()` else `queryset`. -/
def filter_by_product_id (qs : List Order) (value : Rat) : List Order :=
  if value ≠ 0 then qdistinct (mtmJoinRows (fun p => decide ((p.id : Rat) = value)) qs)
  else qs

/-- `CustomerFilter`'s declared filters, in declaration order. -/
def customerFilters : List (FilterDef Customer) :=
  [ ⟨"name", .tChar, charStep (fun c => c.name)⟩,
    ⟨"email", .tChar, charStep (fun c => c.email)⟩,
    ⟨"created_at_gte", .tNum, gteStep (fun c => c.created_at)⟩,
    ⟨"created_at_lte", .tNum, lteStep (fun c => c.created_at)⟩,
    ⟨"phone_pattern", .tChar, fun qs c =>
      match c with
      | .cstr s => filter_phone_pattern qs s
      | _ => qs⟩ ]

/-- `ProductFilter`'s declared filters, in declaration order. -/
def productFilters : List (FilterDef Product) :=
  [ ⟨"name", .tChar, charStep (fun p => p.name)⟩,
    ⟨"price_gte", .tNum, gteStep (fun p => p.price)⟩,
    ⟨"price_lte", .tNum, lteStep (fun p => p.price)⟩,
    ⟨"stock_gte", .tNum, gteStep (fun p => (p.stock : Rat))⟩,
    ⟨"stock_lte", .tNum, lteStep (fun p => (p.stock : Rat))⟩,
    ⟨"stock", .tNum, exactStep (fun p => (p.stock : Rat))⟩,
    ⟨"low_stock", .tBool, fun qs c =>
      match c with
      | .cbool b => filter_low_stock qs b
      | _ => qs⟩ ]

/-- `OrderFilter`'s declared filters, in declaration order.
`product_name` narrows through the many-to-many join with no
`distinct()` call; `product_id` delegates to the custom method. -/
def orderFilters : List (FilterDef Order) :=
  [ ⟨"total_amount_gte", .tNum, gteStep (fun o => o.total_amount)⟩,
    ⟨"total_amount_lte", .tNum, lteStep (fun o => o.total_amount)⟩,
    ⟨"order_date_gte", .tNum, gteStep (fun o => o.order_date)⟩,
    ⟨"order_date_lte", .tNum, lteStep (fun o => o.order_date)⟩,
    ⟨"customer_name", .tChar, charStep (fun o => o.customer.name)⟩,
    ⟨"product_name", .tChar, fun qs c =>
      match c with
      | .cstr s => mtmJoinRows (fun p => icontains p.name s) qs
      | _ => qs⟩,
    ⟨"product_id", .tNum, fun qs c =>
      match c with
      | .cnum v => filter_by_product_id qs v
      | _ => qs⟩ ]

/-! ### Sample rows used for concrete evaluations -/

/-- A sample customer row. -/
def cexCustomer : Customer := ⟨1, "Alice", "alice@example.com", some "+15551234567", 0⟩

/-- A sample customer row with a phone number not starting with "+1". -/
def cexCustomer2 : Customer := ⟨2, "Bob", "bob@example.com", some "0775551234", 0⟩

/-- A sample product row whose name contains "ap". -/
def cexApple : Product := ⟨1, "apple", 2, 50⟩

/-- A second sample product row whose name contains "ap". -/
def cexApricot : Product := ⟨2, "apricot", 3, 40⟩

/-- A sample order row holding two products whose names both contain "ap". -/
def cexOrder : Order := ⟨1, cexCustomer, [cexApple, cexApricot], 5, 0⟩

/-! ### Generic properties of the engine -/

/-- Remove every binding for one parameter name from a request. -/
def removeFilter (F : String) (req : FilterRequest) : FilterRequest :=
  req.filter (fun p => !(p.1 == F))

theorem getRaw_cons_ne (p : String × FilterValue) (req : FilterRequest) {n : String}
    (h : p.1 ≠ n) : getRaw (p :: req) n = getRaw req n := by
  unfold getRaw
  rw [List.find?_cons_of_neg _ (by simpa using h)]

theorem getRaw_cons_self (p : String × FilterValue) (req : FilterRequest) {n : String}
    (h : p.1 = n) : getRaw (p :: req) n = some p.2 := by
  unfold getRaw
  rw [List.find?_cons_of_pos _ (by simpa using h)]
  rfl

theorem removeFilter_cons_drop (F : String) (p : String × FilterValue)
    (rest : FilterRequest) (h : p.1 = F) :
    removeFilter F (p :: rest) = removeFilter F rest := by
  simp [removeFilter, List.filter_cons, h]

theorem removeFilter_cons_keep (F : String) (p : String × FilterValue)
    (rest : FilterRequest) (h : p.1 ≠ F) :
    removeFilter F (p :: rest) = p :: removeFilter F rest := by
  simp [removeFilter, List.filter_cons, h]

theorem getRaw_removeFilter_self (F : String) (req : FilterRequest) :
    getRaw (removeFilter F req) F = none := by
  induction req with
  | nil => rfl
  | cons p rest ih =>
      by_cases hp : p.1 = F
      · rw [removeFilter_cons_drop F p rest hp]
        exact ih
      · rw [removeFilter_cons_keep F p rest hp, getRaw_cons_ne p _ hp]
        exact ih

theorem getRaw_removeFilter_ne (F : String) (req : FilterRequest) {n : String}
    (h : n ≠ F) : getRaw (removeFilter F req) n = getRaw req n := by
  induction req with
  | nil => rfl
  | cons p rest ih =>
      by_cases hp : p.1 = F
      · have hpn : p.1 ≠ n := by rw [hp]; exact fun hh => h hh.symm
        rw [removeFilter_cons_drop F p rest hp, getRaw_cons_ne p rest hpn]
        exact ih
      · rw [removeFilter_cons_keep F p rest hp]
        by_cases hn : p.1 = n
        · rw [getRaw_cons_self p _ hn, getRaw_cons_self p _ hn]
        · rw [getRaw_cons_ne p _ hn, getRaw_cons_ne p _ hn]
          exact ih

theorem cleanOne_none (ft : FieldType) : cleanOne ft none = .ok none := by
  cases ft <;> rfl

theorem cleanOne_null (ft : FieldType) : cleanOne ft (some .null) = .ok none := by
  cases ft <;> rfl

theorem cleanOne_emptyStr (ft : FieldType) : cleanOne ft (some (.str "")) = .ok none := by
  cases ft <;> rfl

theorem cleanOne_of_empty (ft : FieldType) (r : Option FilterValue)
    (h : r = none ∨ r = some .null ∨ r = some (.str "")) : cleanOne ft r = .ok none := by
  rcases h with h | h | h <;> subst h
  · exact cleanOne_none ft
  · exact cleanOne_null ft
  · exact cleanOne_emptyStr ft

theorem cleanAll_congr {α : Type} (spec : List (FilterDef α)) (req1 req2 : FilterRequest)
    (h : ∀ fd ∈ spec,
      cleanOne fd.ftype (getRaw req1 fd.name) = cleanOne fd.ftype (getRaw req2 fd.name)) :
    cleanAll spec req1 = cleanAll spec req2 := by
  induction spec with
  | nil => rfl
  | cons fd rest ih =>
      simp only [cleanAll]
      rw [h fd (List.mem_cons_self fd rest),
        ih (fun fd' h' => h fd' (List.mem_cons_of_mem fd h'))]

theorem applyFilterSet_congr {α : Type} (spec : List (FilterDef α)) (req1 req2 : FilterRequest)
    (qs : List α)
    (h : ∀ fd ∈ spec,
      cleanOne fd.ftype (getRaw req1 fd.name) = cleanOne fd.ftype (getRaw req2 fd.name)) :
    applyFilterSet spec req1 qs = applyFilterSet spec req2 qs := by
  unfold applyFilterSet
  rw [cleanAll_congr spec req1 req2 h]

theorem applyFilterSet_removeFilter {α : Type} (spec : List (FilterDef α)) (req : FilterRequest)
    (F : String) (qs : List α)
    (h : getRaw req F = none ∨ getRaw req F = some .null ∨ getRaw req F = some (.str "")) :
    applyFilterSet spec req qs = applyFilterSet spec (removeFilter F req) qs := by
  apply applyFilterSet_congr
  intro fd _
  by_cases hn : fd.name = F
  · rw [hn, cleanOne_of_empty _ _ h, getRaw_removeFilter_self, cleanOne_none]
  · rw [getRaw_removeFilter_ne F req hn]

theorem applyFilterSet_unknown {α : Type} (spec : List (FilterDef α)) (F : String)
    (v : FilterValue) (req : FilterRequest) (qs : List α)
    (h : ∀ fd ∈ spec, fd.name ≠ F) :
    applyFilterSet spec ((F, v) :: req) qs = applyFilterSet spec req qs := by
  apply applyFilterSet_congr
  intro fd hfd
  rw [getRaw_cons_ne (F, v) req (fun hh => (h fd hfd) hh.symm)]

/-! ### Narrowing: every step only keeps rows of its input -/

theorem charStep_subset {α : Type} (get : α → String) (qs : List α) (c : Cleaned) (x : α)
    (h : x ∈ charStep get qs c) : x ∈ qs := by
  cases c with
  | cstr s => exact (List.mem_filter.mp h).1
  | cnum q => exact h
  | cbool b => exact h

theorem gteStep_subset {α : Type} (get : α → Rat) (qs : List α) (c : Cleaned) (x : α)
    (h : x ∈ gteStep get qs c) : x ∈ qs := by
  cases c with
  | cstr s => exact h
  | cnum q => exact (List.mem_filter.mp h).1
  | cbool b => exact h

theorem lteStep_subset {α : Type} (get : α → Rat) (qs : List α) (c : Cleaned) (x : α)
    (h : x ∈ lteStep get qs c) : x ∈ qs := by
  cases c with
  | cstr s => exact h
  | cnum q => exact (List.mem_filter.mp h).1
  | cbool b => exact h

theorem exactStep_subset {α : Type} (get : α → Rat) (qs : List α) (c : Cleaned) (x : α)
    (h : x ∈ exactStep get qs c) : x ∈ qs := by
  cases c with
  | cstr s => exact h
  | cnum q => exact (List.mem_filter.mp h).1
  | cbool b => exact h

theorem mtmJoinRows_subset (pred : Product → Bool) (qs : List Order) (x : Order)
    (h : x ∈ mtmJoinRows pred qs) : x ∈ qs := by
  simp only [mtmJoinRows] at h
  obtain ⟨o, ho, hx⟩ := List.mem_flatMap.mp h
  obtain ⟨p, _, hpo⟩ := List.mem_map.mp hx
  subst hpo
  exact ho

theorem distinctAux_subset (l : List Order) : ∀ (seen : List Nat) (x : Order),
    x ∈ distinctAux seen l → x ∈ l := by
  induction l with
  | nil => intro seen x h; exact absurd h (by simp [distinctAux])
  | cons o rest ih =>
      intro seen x h
      rw [distinctAux] at h
      by_cases ho : o.id ∈ seen
      · rw [if_pos ho] at h
        exact List.mem_cons_of_mem o (ih seen x h)
      · rw [if_neg ho] at h
        rcases List.mem_cons.mp h with h1 | h1
        · exact h1 ▸ List.mem_cons_self o rest
        · exact List.mem_cons_of_mem o (ih _ x h1)

theorem qdistinct_subset (qs : List Order) (x : Order) (h : x ∈ qdistinct qs) : x ∈ qs :=
  distinctAux_subset qs [] x h

theorem filter_phone_pattern_subset (qs : List Customer) (v : String) (x : Customer)
    (h : x ∈ filter_phone_pattern qs v) : x ∈ qs := by
  rw [filter_phone_pattern] at h
  split at h
  · exact (List.mem_filter.mp h).1
  · exact h

theorem filter_low_stock_subset (qs : List Product) (v : Bool) (x : Product)
    (h : x ∈ filter_low_stock qs v) : x ∈ qs := by
  rw [filter_low_stock] at h
  split at h
  · exact (List.mem_filter.mp h).1
  · exact h

theorem filter_by_product_id_subset (qs : List Order) (v : Rat) (x : Order)
    (h : x ∈ filter_by_product_id qs v) : x ∈ qs := by
  rw [filter_by_product_id] at h
  split at h
  · exact mtmJoinRows_subset _ qs x (qdistinct_subset _ x h)
  · exact h

/-- Every declared filter of every concrete FilterSet only narrows. -/
theorem customerFilters_sound : ∀ fd ∈ customerFilters, ∀ (qs : List Customer) (c : Cleaned)
    (x : Customer), x ∈ fd.run qs c → x ∈ qs := by
  intro fd hfd qs c x h
  fin_cases hfd
  · exact charStep_subset _ qs c x h
  · exact charStep_subset _ qs c x h
  · exact gteStep_subset _ qs c x h
  · exact lteStep_subset _ qs c x h
  · cases c with
    | cstr s => exact filter_phone_pattern_subset qs s x h
    | cnum q => exact h
    | cbool b => exact h

theorem productFilters_sound : ∀ fd ∈ productFilters, ∀ (qs : List Product) (c : Cleaned)
    (x : Product), x ∈ fd.run qs c → x ∈ qs := by
  intro fd hfd qs c x h
  fin_cases hfd
  · exact charStep_subset _ qs c x h
  · exact gteStep_subset _ qs c x h
  · exact lteStep_subset _ qs c x h
  · exact gteStep_subset _ qs c x h
  · exact lteStep_subset _ qs c x h
  · exact exactStep_subset _ qs c x h
  · cases c with
    | cstr s => exact h
    | cnum q => exact h
    | cbool b => exact filter_low_stock_subset qs b x h

theorem orderFilters_sound : ∀ fd ∈ orderFilters, ∀ (qs : List Order) (c : Cleaned)
    (x : Order), x ∈ fd.run qs c → x ∈ qs := by
  intro fd hfd qs c x h
  fin_cases hfd
  · exact gteStep_subset _ qs c x h
  · exact lteStep_subset _ qs c x h
  · exact gteStep_subset _ qs c x h
  · exact lteStep_subset _ qs c x h
  · exact charStep_subset _ qs c x h
  · cases c with
    | cstr s => exact mtmJoinRows_subset _ qs x h
    | cnum q => exact h
    | cbool b => exact h
  · cases c with
    | cstr s => exact h
    | cnum q => exact filter_by_product_id_subset qs q x h
    | cbool b => exact h

theorem runFilters_mem {α : Type} (cl : List (FilterDef α × Option Cleaned)) :
    ∀ (qs : List α) (x : α),
    (∀ p ∈ cl, ∀ (qs' : List α) (c : Cleaned) (x' : α), x' ∈ p.1.run qs' c → x' ∈ qs') →
    x ∈ runFilters qs cl → x ∈ qs := by
  induction cl with
  | nil => intro qs x _ hx; exact hx
  | cons p rest ih =>
      intro qs x hs hx
      obtain ⟨fd, c⟩ := p
      simp only [runFilters] at hx
      have h1 := ih _ x (fun q hq => hs q (List.mem_cons_of_mem _ hq)) hx
      cases c with
      | none => exact h1
      | some cv => exact hs (fd, some cv) (List.mem_cons_self _ _) qs cv x h1

theorem cleanAll_ok_mem {α : Type} : ∀ (spec : List (FilterDef α)) (req : FilterRequest)
    (cl : List (FilterDef α × Option Cleaned)), cleanAll spec req = .ok cl →
    ∀ p ∈ cl, p.1 ∈ spec := by
  intro spec
  induction spec with
  | nil =>
      intro req cl h p hp
      rw [cleanAll] at h
      cases h
      exact absurd hp (by simp)
  | cons fd rest ih =>
      intro req cl h p hp
      rw [cleanAll] at h
      cases hc : cleanOne fd.ftype (getRaw req fd.name) with
      | error m => rw [hc] at h; cases h
      | ok c =>
          rw [hc] at h
          cases ht : cleanAll rest req with
          | error e => rw [ht] at h; cases h
          | ok tail =>
              rw [ht] at h
              cases h
              rcases List.mem_cons.mp hp with h1 | h1
              · rw [h1]
                exact List.mem_cons_self fd rest
              · exact List.mem_cons_of_mem fd (ih req tail ht p h1)

theorem applyFilterSet_subset {α : Type} (spec : List (FilterDef α))
    (hsound : ∀ fd ∈ spec, ∀ (qs : List α) (c : Cleaned) (x : α), x ∈ fd.run qs c → x ∈ qs)
    (req : FilterRequest) (qs out : List α)
    (h : applyFilterSet spec req qs = .ok out) : ∀ x ∈ out, x ∈ qs := by
  unfold applyFilterSet at h
  cases hc : cleanAll spec req with
  | error e => rw [hc] at h; cases h
  | ok cl =>
      rw [hc] at h
      cases h
      intro x hx
      exact runFilters_mem cl qs x
        (fun p hp => hsound p.1 (cleanAll_ok_mem spec req cl hc p hp)) hx

/-! ### Join multiplicity and deduplication -/

theorem mtmJoinRows_cons (pred : Product → Bool) (o : Order) (rest : List Order) :
    mtmJoinRows pred (o :: rest)
      = List.replicate (o.products.filter pred).length o ++ mtmJoinRows pred rest := by
  simp only [mtmJoinRows, List.flatMap_cons]
  congr 1
  induction (o.products.filter pred) with
  | nil => rfl
  | cons p ps ih => simp [List.replicate_succ, ih]

theorem distinctAux_replicate (seen : List Nat) (o : Order) (l : List Order) (n : Nat)
    (h : o.id ∈ seen) : distinctAux seen (List.replicate n o ++ l) = distinctAux seen l := by
  induction n with
  | zero => rfl
  | succ k ih =>
      rw [List.replicate_succ, List.cons_append, distinctAux, if_pos h]
      exact ih

theorem distinctAux_mtmJoinRows (pred : Product → Bool) :
    ∀ (qs : List Order) (seen : List Nat),
    (qs.map (fun o => o.id)).Nodup → (∀ o ∈ qs, o.id ∉ seen) →
    distinctAux seen (mtmJoinRows pred qs)
      = qs.filter (fun o => o.products.any pred) := by
  intro qs
  induction qs with
  | nil => intro seen _ _; rfl
  | cons o rest ih =>
      intro seen hnd hseen
      rw [List.map_cons] at hnd
      have hnd1 := (List.nodup_cons.mp hnd).1
      have hnd2 := (List.nodup_cons.mp hnd).2
      cases hany : o.products.any pred with
      | false =>
          have hfp : o.products.filter pred = [] := by
            rw [List.filter_eq_nil_iff]
            intro a ha hpa
            have : o.products.any pred = true := List.any_eq_true.mpr ⟨a, ha, hpa⟩
            rw [hany] at this
            cases this
          rw [mtmJoinRows_cons, hfp, List.filter_cons]
          simp only [List.length_nil, List.replicate, List.nil_append, hany,
            Bool.false_eq_true, if_neg, if_false]
          exact ih seen hnd2 (fun o' h' => hseen o' (List.mem_cons_of_mem _ h'))
      | true =>
          have hm : o.id ∉ seen := hseen o (List.mem_cons_self o rest)
          have hlen : 0 < (o.products.filter pred).length := by
            rw [List.length_pos]
            intro hnil
            rw [List.filter_eq_nil_iff] at hnil
            obtain ⟨a, ha, hpa⟩ := List.any_eq_true.mp hany
            exact hnil a ha hpa
          obtain ⟨n, hn⟩ : ∃ n, (o.products.filter pred).length = n + 1 :=
            ⟨(o.products.filter pred).length - 1, (Nat.succ_pred_eq_of_pos hlen).symm⟩
          rw [mtmJoinRows_cons, hn, List.replicate_succ, List.cons_append,
            distinctAux, if_neg hm,
            distinctAux_replicate _ o _ n (List.mem_cons_self _ _),
            List.filter_cons]
          simp only [hany, if_pos]
          congr 1
          apply ih (o.id :: seen) hnd2
          intro o' h'
          simp only [List.mem_cons]
          rintro (h1 | h1)
          · exact hnd1 (h1 ▸ List.mem_map_of_mem _ h')
          · exact hseen o' (List.mem_cons_of_mem _ h') h1

theorem qdistinct_mtmJoinRows (pred : Product → Bool) (qs : List Order)
    (hnd : (qs.map (fun o => o.id)).Nodup) :
    qdistinct (mtmJoinRows pred qs) = qs.filter (fun o => o.products.any pred) :=
  distinctAux_mtmJoinRows pred qs [] hnd (fun _ _ h => absurd h (by simp))

theorem count_mtmJoinRows (pred : Product → Bool) (o : Order) :
    ∀ qs : List Order, (mtmJoinRows pred qs).count o
      = qs.count o * (o.products.filter pred).length := by
  intro qs
  induction qs with
  | nil => simp [mtmJoinRows]
  | cons o' rest ih =>
      rw [mtmJoinRows_cons, List.count_append, List.count_cons, ih,
        List.count_replicate]
      by_cases h : o' = o
      · subst h
        simp only [beq_self_eq_true, if_pos]
        ring
      · have hb : (o' == o) = false := by simpa using h
        simp [hb]

theorem mem_mtmJoinRows (pred : Product → Bool) (x : Order) (qs : List Order) :
    x ∈ mtmJoinRows pred qs ↔ x ∈ qs ∧ x.products.any pred = true := by
  constructor
  · intro h
    obtain ⟨o, ho, hx⟩ := List.mem_flatMap.mp h
    obtain ⟨p, hp, hpo⟩ := List.mem_map.mp hx
    subst hpo
    exact ⟨ho, List.any_eq_true.mpr ⟨p, (List.mem_filter.mp hp).1, (List.mem_filter.mp hp).2⟩⟩
  · rintro ⟨hx, hany⟩
    obtain ⟨p, hp, hpa⟩ := List.any_eq_true.mp hany
    exact List.mem_flatMap.mpr ⟨x, hx,
      List.mem_map.mpr ⟨p, List.mem_filter.mpr ⟨hp, hpa⟩, rfl⟩⟩

/-! ### Claims -/

/-- C2: for every entity (Customer, Product, Order), every declared filter
name F, and every collection, a request that binds F to an absent, null or
empty-string raw value filters exactly like the same request with F
removed: the filter is a no-op and no predicate for F is added, uniformly
for operator-bound and custom filters. -/
theorem empty_value_filters_are_noops :
    (∀ (F : String), F ∈ customerFilters.map (fun fd => fd.name) →
      ∀ (req : FilterRequest) (qs : List Customer),
      (getRaw req F = none ∨ getRaw req F = some .null ∨ getRaw req F = some (.str "")) →
      applyFilterSet customerFilters req qs
        = applyFilterSet customerFilters (removeFilter F req) qs)
    ∧ (∀ (F : String), F ∈ productFilters.map (fun fd => fd.name) →
      ∀ (req : FilterRequest) (qs : List Product),
      (getRaw req F = none ∨ getRaw req F = some .null ∨ getRaw req F = some (.str "")) →
      applyFilterSet productFilters req qs
        = applyFilterSet productFilters (removeFilter F req) qs)
    ∧ (∀ (F : String), F ∈ orderFilters.map (fun fd => fd.name) →
      ∀ (req : FilterRequest) (qs : List Order),
      (getRaw req F = none ∨ getRaw req F = some .null ∨ getRaw req F = some (.str "")) →
      applyFilterSet orderFilters req qs
        = applyFilterSet orderFilters (removeFilter F req) qs) :=
  ⟨fun F _ req qs h => applyFilterSet_removeFilter customerFilters req F qs h,
   fun F _ req qs h => applyFilterSet_removeFilter productFilters req F qs h,
   fun F _ req qs h => applyFilterSet_removeFilter orderFilters req F qs h⟩

/-- C2 witness: the customer `phone_pattern` filter bound to the empty
string behaves like the request without it, at a concrete input. -/
theorem empty_value_filters_are_noops_witness :
    applyFilterSet customerFilters
        [("phone_pattern", FilterValue.str ""), ("name", FilterValue.str "li")] [cexCustomer]
      = applyFilterSet customerFilters
        (removeFilter "phone_pattern"
          [("phone_pattern", FilterValue.str ""), ("name", FilterValue.str "li")])
        [cexCustomer] :=
  empty_value_filters_are_noops.1 "phone_pattern" (by decide)
    [("phone_pattern", FilterValue.str ""), ("name", FilterValue.str "li")] [cexCustomer]
    (Or.inr (Or.inr rfl))

/-- C4: the Product `low_stock` filter with value true keeps exactly the
products with stock strictly below 10; with value false or with the value
absent it returns the collection unchanged. -/
theorem low_stock_filter_spec :
    ∀ qs : List Product,
    applyFilterSet productFilters [("low_stock", FilterValue.boolean true)] qs
        = .ok (qs.filter (fun p => decide (p.stock < 10)))
    ∧ applyFilterSet productFilters [("low_stock", FilterValue.boolean false)] qs = .ok qs
    ∧ applyFilterSet productFilters [] qs = .ok qs := by
  intro qs
  exact ⟨rfl, rfl, rfl⟩

/-- C5: the Customer `phone_pattern` filter with a non-empty string keeps
exactly the customers whose phone starts with that string; with the empty
string or with the value absent it returns the collection unchanged. -/
theorem phone_pattern_filter_spec :
    (∀ (qs : List Customer) (v : String), v ≠ "" →
      applyFilterSet customerFilters [("phone_pattern", FilterValue.str v)] qs
        = .ok (qs.filter (fun c => phone_startswith c v)))
    ∧ (∀ qs : List Customer,
      applyFilterSet customerFilters [("phone_pattern", FilterValue.str "")] qs = .ok qs)
    ∧ (∀ qs : List Customer, applyFilterSet customerFilters [] qs = .ok qs) := by
  refine ⟨?_, fun qs => rfl, fun qs => rfl⟩
  intro qs v h
  simp [applyFilterSet, cleanAll, cleanOne, getRaw, List.find?, runFilters,
    customerFilters, filter_phone_pattern, h]

/-- C5 witness: `phone_pattern="+1"` over two concrete customers keeps
exactly the one whose phone starts with "+1". -/
theorem phone_pattern_filter_spec_witness :
    applyFilterSet customerFilters [("phone_pattern", FilterValue.str "+1")]
        [cexCustomer, cexCustomer2]
      = .ok ([cexCustomer, cexCustomer2].filter (fun c => phone_startswith c "+1")) :=
  phone_pattern_filter_spec.1 [cexCustomer, cexCustomer2] "+1" (by decide)

/-- C6: for every entity, a filter name not declared in its FilterSet is
silently ignored: extending any request with a binding for it leaves the
result unchanged, and no error is raised. -/
theorem unknown_filter_names_ignored :
    (∀ (F : String) (v : FilterValue) (req : FilterRequest) (qs : List Customer),
      F ∉ customerFilters.map (fun fd => fd.name) →
      applyFilterSet customerFilters ((F, v) :: req) qs
        = applyFilterSet customerFilters req qs)
    ∧ (∀ (F : String) (v : FilterValue) (req : FilterRequest) (qs : List Product),
      F ∉ productFilters.map (fun fd => fd.name) →
      applyFilterSet productFilters ((F, v) :: req) qs
        = applyFilterSet productFilters req qs)
    ∧ (∀ (F : String) (v : FilterValue) (req : FilterRequest) (qs : List Order),
      F ∉ orderFilters.map (fun fd => fd.name) →
      applyFilterSet orderFilters ((F, v) :: req) qs
        = applyFilterSet orderFilters req qs) :=
  ⟨fun F v req qs h => applyFilterSet_unknown customerFilters F v req qs
      (fun _fd hfd heq => h (heq ▸ List.mem_map_of_mem _ hfd)),
   fun F v req qs h => applyFilterSet_unknown productFilters F v req qs
      (fun _fd hfd heq => h (heq ▸ List.mem_map_of_mem _ hfd)),
   fun F v req qs h => applyFilterSet_unknown orderFilters F v req qs
      (fun _fd hfd heq => h (heq ▸ List.mem_map_of_mem _ hfd))⟩

/-- C6 witness: an undeclared parameter name added to a concrete customer
request leaves the result unchanged. -/
theorem unknown_filter_names_ignored_witness :
    applyFilterSet customerFilters
        [("flavor", FilterValue.str "x"), ("name", FilterValue.str "li")] [cexCustomer]
      = applyFilterSet customerFilters [("name", FilterValue.str "li")] [cexCustomer] :=
  unknown_filter_names_ignored.1 "flavor" (FilterValue.str "x")
    [("name", FilterValue.str "li")] [cexCustomer] (by decide)

/-- C9: filtering only narrows: whenever a filter application succeeds,
every record of the result was a record of the input collection, for all
three entities and all requests. -/
theorem filters_only_narrow :
    (∀ (req : FilterRequest) (qs out : List Customer),
      applyFilterSet customerFilters req qs = .ok out → ∀ x ∈ out, x ∈ qs)
    ∧ (∀ (req : FilterRequest) (qs out : List Product),
      applyFilterSet productFilters req qs = .ok out → ∀ x ∈ out, x ∈ qs)
    ∧ (∀ (req : FilterRequest) (qs out : List Order),
      applyFilterSet orderFilters req qs = .ok out → ∀ x ∈ out, x ∈ qs) :=
  ⟨fun req qs out h => applyFilterSet_subset customerFilters customerFilters_sound req qs out h,
   fun req qs out h => applyFilterSet_subset productFilters productFilters_sound req qs out h,
   fun req qs out h => applyFilterSet_subset orderFilters orderFilters_sound req qs out h⟩

/-- C9 witness: a concrete duplicated join result still only contains
rows of the input collection. -/
theorem filters_only_narrow_witness :
    ∀ x ∈ ([cexOrder, cexOrder] : List Order), x ∈ ([cexOrder] : List Order) :=
  filters_only_narrow.2.2 [("product_name", FilterValue.str "ap")]
    [cexOrder] [cexOrder, cexOrder] rfl

/-- C10: the Order `product_id` filter called with the numeric value 0 is
a no-op (the custom method's truthiness guard treats 0 like an absent
value), rather than returning the empty set of orders containing a
product with identifier 0. -/
theorem product_id_zero_is_noop :
    ∀ qs : List Order,
    applyFilterSet orderFilters [("product_id", FilterValue.num 0)] qs = .ok qs := by
  intro qs
  rfl

/-- C3: the Order `product_id` filter with a nonzero product identifier
keeps exactly the orders whose products include that identifier, and over
a duplicate-free collection every matching order appears exactly once in
the result (the join is deduplicated by `distinct()`). -/
theorem product_id_filter_exact_dedup :
    ∀ (qs : List Order) (i : Nat), i ≠ 0 → (qs.map (fun o => o.id)).Nodup →
    applyFilterSet orderFilters [("product_id", FilterValue.num (i : Rat))] qs
        = .ok (qs.filter (fun o => o.products.any (fun p => decide (p.id = i))))
    ∧ ∀ o ∈ qs.filter (fun o => o.products.any (fun p => decide (p.id = i))),
        (qs.filter (fun o => o.products.any (fun p => decide (p.id = i)))).count o = 1 := by
  intro qs i hi hnd
  constructor
  · have hne : ((i : Nat) : Rat) ≠ 0 := Nat.cast_ne_zero.mpr hi
    have hfun : (fun p : Product => decide ((p.id : Rat) = ((i : Nat) : Rat)))
        = (fun p : Product => decide (p.id = i)) := by
      funext p
      simp [Nat.cast_inj]
    show Except.ok (filter_by_product_id qs ((i : Nat) : Rat)) = _
    rw [filter_by_product_id, if_pos hne, hfun, qdistinct_mtmJoinRows _ qs hnd]
  · intro o ho
    exact List.count_eq_one_of_mem (List.Nodup.filter _ (List.Nodup.of_map _ hnd)) ho

/-- C3 witness: `product_id=1` over a concrete one-order collection whose
order holds product 1 returns that order exactly once. -/
theorem product_id_filter_exact_dedup_witness :
    (applyFilterSet orderFilters
        [("product_id", FilterValue.num ((1 : Nat) : Rat))] [cexOrder]
      = .ok ([cexOrder].filter (fun o => o.products.any (fun p => decide (p.id = 1)))))
    ∧ ∀ o ∈ [cexOrder].filter (fun o => o.products.any (fun p => decide (p.id = 1))),
        ([cexOrder].filter (fun o => o.products.any (fun p => decide (p.id = 1)))).count o
          = 1 :=
  product_id_filter_exact_dedup [cexOrder] 1 (by decide) (by decide)

/-- C1 counterexample: the Order `product_name` filter is NOT
deduplicated: over a single order holding two products whose names both
contain "ap", filtering with "ap" returns the order twice, not once, so
the result is not the set of matching orders each appearing exactly once. -/
theorem product_name_not_deduplicated_counterexample :
    applyFilterSet orderFilters [("product_name", FilterValue.str "ap")] [cexOrder]
        = .ok [cexOrder, cexOrder]
    ∧ applyFilterSet orderFilters [("product_name", FilterValue.str "ap")] [cexOrder]
        ≠ .ok [cexOrder] := by
  constructor
  · rfl
  · intro hcontra
    have h1 : applyFilterSet orderFilters [("product_name", FilterValue.str "ap")] [cexOrder]
        = .ok [cexOrder, cexOrder] := rfl
    rw [h1] at hcontra
    have h2 := Except.ok.inj hcontra
    simp at h2

/-- C1 (amended): the Order `product_name` filter with a non-empty value
keeps the orders having at least one product whose name contains the
value case-insensitively, but each order appears once per matching
product (the one-to-many join is not deduplicated), rather than exactly
once. -/
theorem product_name_join_multiplicity :
    ∀ (qs : List Order) (v : String), v ≠ "" →
    ∃ out, applyFilterSet orderFilters [("product_name", FilterValue.str v)] qs = .ok out
      ∧ (∀ o : Order,
          o ∈ out ↔ o ∈ qs ∧ o.products.any (fun p => icontains p.name v) = true)
      ∧ (∀ o : Order, out.count o
          = qs.count o * (o.products.filter (fun p => icontains p.name v)).length) := by
  intro qs v h
  refine ⟨mtmJoinRows (fun p => icontains p.name v) qs, ?_, ?_, ?_⟩
  · simp [applyFilterSet, cleanAll, cleanOne, getRaw, List.find?, runFilters,
      orderFilters, h]
  · intro o
    exact mem_mtmJoinRows _ o qs
  · intro o
    exact count_mtmJoinRows _ o qs

/-- C1 (amended) witness: at the concrete duplicated input, the result is
defined, its membership matches orders with a matching product, and the
order's multiplicity equals its number of matching products. -/
theorem product_name_join_multiplicity_witness :
    ∃ out, applyFilterSet orderFilters [("product_name", FilterValue.str "ap")] [cexOrder]
        = .ok out
      ∧ (∀ o : Order,
          o ∈ out ↔ o ∈ [cexOrder] ∧ o.products.any (fun p => icontains p.name "ap") = true)
      ∧ (∀ o : Order, out.count o
          = [cexOrder].count o * (o.products.filter (fun p => icontains p.name "ap")).length) :=
  product_name_join_multiplicity [cexOrder] "ap" (by decide)
